import Mathlib

/-!
Verification of the open-wispr dictation pipeline core: WAV encoding,
transcription post-processing, overlay stop-side processing, the
dictionary-correction heuristic and the word-count statistics handler.
Each definition is a shallow embedding of the corresponding source
function; theorems settle the specified properties against them.
-/

/- ## String utilities

The source tokenizes with `text.split(/\s+/).filter(w => w.length > 0)`,
lowercases with `toLowerCase`, joins with a single space, trims with `trim`
and slices with `slice(0, n)`.  These are embedded as structural
recursions over the character list so that they evaluate in the kernel. -/

/-- Accumulator-based whitespace splitter: collects the current word in
`acc` (reversed) and emits it when whitespace or the end is reached.
Empty pieces are never emitted, matching `split(/\s+/).filter(w => w.length > 0)`. -/
def splitWSAux : List Char → List Char → List String
  | [], acc => if acc.isEmpty then [] else [String.mk acc.reverse]
  | c :: cs, acc =>
    if c.isWhitespace then
      if acc.isEmpty then splitWSAux cs []
      else String.mk acc.reverse :: splitWSAux cs []
    else splitWSAux cs (c :: acc)

/-- Embeds `text.split(/\s+/).filter(w => w.length > 0)` from `detectWordCorrection`. -/
def tokenize (text : String) : List String :=
  splitWSAux text.data []

/-- JS `toLowerCase` (ASCII, as exercised by the specified inputs). -/
def lowerStr (s : String) : String :=
  String.mk (s.data.map Char.toLower)

/-- JS `array.join` with a single-space separator. -/
def joinSpace : List String → String
  | [] => ""
  | [w] => w
  | w :: ws => w ++ " " ++ joinSpace ws

/-- JS `String.prototype.trim`. -/
def trimStr (s : String) : String :=
  String.mk (((s.data.dropWhile Char.isWhitespace).reverse.dropWhile Char.isWhitespace).reverse)

/-- JS `String.prototype.slice(0, n)`. -/
def takeStr (s : String) (n : Nat) : String :=
  String.mk (s.data.take n)

/- ## Dictionary entries (DictionaryPanel / electron store) -/

/-- The `DictionaryEntry` record: `{id, original, corrected, caseSensitive, enabled, createdAt}`. -/
structure DictionaryEntry where
  id : String
  original : String
  corrected : String
  caseSensitive : Bool
  enabled : Bool
  createdAt : Nat
deriving DecidableEq

/-- A detected `{original, corrected}` suggestion from the correction detector. -/
structure DetectedCorrection where
  original : String
  corrected : String
deriving DecidableEq

/- ## detectWordCorrection (Overlay component)

Faithful embedding of the two-branch heuristic: the equal-token-count
branch looks for index-wise case-insensitive differences, and on
fall-through the collapse branch compares case-insensitive token sets. -/

/-- Equal-token-count branch of `detectWordCorrection`: index-wise
case-insensitive differences; exactly one differing pair that is not
already in the dictionary is returned.  Any other outcome falls through. -/
def equalCountBranch (originalWords editedWords : List String)
    (existingDictionary : List DictionaryEntry) : Option DetectedCorrection :=
  if originalWords.length = editedWords.length then
    match (originalWords.zip editedWords).filter
        (fun p => !(lowerStr p.1 == lowerStr p.2)) with
    | [diff] =>
      if existingDictionary.any
          (fun entry => lowerStr entry.original == lowerStr diff.1) then none
      else some ⟨diff.1, diff.2⟩
    | _ => none
  else none

/-- Changed-token-count branch of `detectWordCorrection`: when the counts
differ by at most two, tokens of each side absent (case-insensitively)
from the other are collected; at least one removed token collapsing to a
single added token yields the joined phrase as a suggestion. -/
def collapseBranch (originalWords editedWords : List String)
    (existingDictionary : List DictionaryEntry) : Option DetectedCorrection :=
  if ((originalWords.length : Int) - (editedWords.length : Int)).natAbs ≤ 2 then
    let editedLower := editedWords.map lowerStr
    let originalLower := originalWords.map lowerStr
    let removed := originalWords.filter
      (fun w => !(editedLower.contains (lowerStr w)))
    let added := editedWords.filter
      (fun w => !(originalLower.contains (lowerStr w)))
    if removed.length ≥ 1 ∧ added.length = 1 then
      let original := joinSpace removed
      let corrected := added.headD ("")
      if existingDictionary.any
          (fun entry => lowerStr entry.original == lowerStr original) then none
      else if lowerStr original = lowerStr corrected then none
      else some ⟨original, corrected⟩
    else none
  else none

/-- Embedding of `detectWordCorrection(originalText, editedText, existingDictionary)`:
guard clauses, then the equal-count branch, then (on fall-through) the
collapse branch. -/
def detectWordCorrection (originalText editedText : String)
    (existingDictionary : List DictionaryEntry) : Option DetectedCorrection :=
  if originalText = "" ∨ editedText = "" ∨ originalText = editedText then none
  else
    let originalWords := tokenize originalText
    let editedWords := tokenize editedText
    match equalCountBranch originalWords editedWords existingDictionary with
    | some r => some r
    | none => collapseBranch originalWords editedWords existingDictionary


/- ## convertToWav (useRecording hook)

The `DataView` is embedded as a byte store `Nat → Nat`; `setUint8`,
`setUint16`/`setUint32` (little-endian, as all source calls pass
`true`) and `setInt16` are functional updates.  Samples are rationals
(the decoded `Float32Array` values); `setInt16` truncates toward zero
as the JS ToInteger conversion does and stores twos complement. -/

/-- JS `view.setUint8(offset, v)`: store the low byte at `offset`. -/
def setUint8 (view : Nat → Nat) (offset v : Nat) : Nat → Nat :=
  fun i => if i = offset then v % 256 else view i

/-- JS `view.setUint16(offset, v, true)`: little-endian 16-bit store. -/
def setUint16 (view : Nat → Nat) (offset v : Nat) : Nat → Nat :=
  setUint8 (setUint8 view offset v) (offset + 1) (v / 256)

/-- JS `view.setUint32(offset, v, true)`: little-endian 32-bit store. -/
def setUint32 (view : Nat → Nat) (offset v : Nat) : Nat → Nat :=
  setUint8 (setUint8 (setUint8 (setUint8 view offset v)
    (offset + 1) (v / 256)) (offset + 2) (v / 65536)) (offset + 3) (v / 16777216)

/-- JS ToInteger on a (finite) number: truncation toward zero. -/
def jsTrunc (q : ℚ) : Int :=
  if q < 0 then ⌈q⌉ else ⌊q⌋

/-- Twos-complement 16-bit image of an integer, as `setInt16` stores it. -/
def toUInt16 (z : Int) : Nat :=
  (z % 65536).toNat

/-- JS `view.setInt16(offset, v, true)`: truncate toward zero, wrap to 16
bits and store little-endian. -/
def setInt16 (view : Nat → Nat) (offset : Nat) (v : ℚ) : Nat → Nat :=
  setUint16 view offset (toUInt16 (jsTrunc v))

/-- The source `writeString(view, offset, string)`: successive `setUint8` of the
character codes. -/
def writeStringBytes (view : Nat → Nat) (offset : Nat) : List Char → (Nat → Nat)
  | [] => view
  | c :: cs => writeStringBytes (setUint8 view offset c.toNat) (offset + 1) cs

/-- The `writeString` entry point taking the string itself. -/
def writeString (view : Nat → Nat) (offset : Nat) (s : String) : Nat → Nat :=
  writeStringBytes view offset s.data

/-- The clamp `Math.max(-1, Math.min(1, channelData[i]))`. -/
def clampSample (x : ℚ) : ℚ :=
  max (-1) (min 1 x)

/-- The value handed to `setInt16`: the clamped sample scaled by
`0x8000` when negative and `0x7fff` otherwise. -/
def scaledSample (x : ℚ) : ℚ :=
  let sample := clampSample x
  if sample < 0 then sample * 0x8000 else sample * 0x7fff

/-- The signed 16-bit integer actually stored for an input sample. -/
def encodeSample (x : ℚ) : Int :=
  jsTrunc (scaledSample x)

/-- The sample-writing loop of `convertToWav`: for each sample, clamp,
scale and `setInt16` at the running offset (starting at 44, step 2). -/
def writeAudioData (view : Nat → Nat) (offset : Nat) : List ℚ → (Nat → Nat)
  | [] => view
  | x :: xs => writeAudioData (setInt16 view offset (scaledSample x)) (offset + 2) xs

/-- The 44-byte RIFF/WAVE header writes of `convertToWav`, in source
order, over the zero-initialized `ArrayBuffer`. -/
def headerView (length : Nat) : Nat → Nat :=
  let numberOfChannels : Nat := 1
  let sampleRate : Nat := 16000
  let v0 : Nat → Nat := fun _ => 0
  let v1 := writeString v0 0 ("RIFF")
  let v2 := setUint32 v1 4 (36 + length * 2)
  let v3 := writeString v2 8 ("WAVE")
  let v4 := writeString v3 12 ("fmt ")
  let v5 := setUint32 v4 16 16
  let v6 := setUint16 v5 20 1
  let v7 := setUint16 v6 22 numberOfChannels
  let v8 := setUint32 v7 24 sampleRate
  let v9 := setUint32 v8 28 (sampleRate * numberOfChannels * 2)
  let v10 := setUint16 v9 32 (numberOfChannels * 2)
  let v11 := setUint16 v10 34 16
  let v12 := writeString v11 36 ("data")
  setUint32 v12 40 (length * 2)

/-- The blob returned by `convertToWav`: a byte list and a mime type. -/
structure WavBlob where
  bytes : List Nat
  mimeType : String
deriving DecidableEq

/-- Embedding of `convertToWav`: a `44 + length * 2`-byte buffer holding the header
followed by the 16-bit little-endian samples, tagged `audio/wav`. -/
def convertToWav (samples : List ℚ) : WavBlob :=
  { bytes := (List.range (44 + samples.length * 2)).map
      (writeAudioData (headerView samples.length) 44 samples),
    mimeType := "audio/wav" }

/-- Byte of the blob at index `i` (0 out of range). -/
def byteAt (b : WavBlob) (i : Nat) : Nat :=
  b.bytes.getD i 0

/-- Little-endian 16-bit read from the blob. -/
def readU16 (b : WavBlob) (offset : Nat) : Nat :=
  byteAt b offset + 256 * byteAt b (offset + 1)

/-- Little-endian 32-bit read from the blob. -/
def readU32 (b : WavBlob) (offset : Nat) : Nat :=
  readU16 b offset + 65536 * readU16 b (offset + 2)


/- ## postProcessTranscription (post-processing service)

The remote chat call is abstracted as a `RemoteOutcome`: either the
request throws, or it returns a response whose
`choices[0]?.message?.content` is `none` or some string.  The embedding
returns the delivered text together with whether the network request
was issued at all. -/

/-- The six `PostProcessingOptions` flags. -/
structure PostProcessingOptions where
  removeFillerWords : Bool
  removeFalseStarts : Bool
  fixPunctuation : Bool
  fixCapitalization : Bool
  fixGrammar : Bool
  smartFormatting : Bool
deriving DecidableEq

/-- JS `Object.values(options)` for the six flags. -/
def optionValues (o : PostProcessingOptions) : List Bool :=
  [o.removeFillerWords, o.removeFalseStarts, o.fixPunctuation,
   o.fixCapitalization, o.fixGrammar, o.smartFormatting]

/-- Outcome of the remote cleanup call: the request throws, or it
returns with optional message content. -/
inductive RemoteOutcome where
  | failure
  | success (content : Option String)
deriving DecidableEq

/-- A remote outcome that counts as a failed cleanup: throw, missing
content, or content trimming to the empty string. -/
def remoteFailedOrEmpty : RemoteOutcome → Bool
  | .failure => true
  | .success none => true
  | .success (some content) => trimStr content == ""

/-- What `postProcessTranscription` produced: the returned text and
whether the chat-completion request was issued. -/
structure PostProcessResult where
  result : String
  requested : Bool
deriving DecidableEq

/-- Embedding of `postProcessTranscription(text, apiKey, options)`: identity without
any request when every option is disabled; otherwise one request whose
failure, missing content or empty trimmed content all fall back to the
original text (`result?.trim() || text`, and the `catch` returning
`text`). -/
def postProcessTranscription (text apiKey : String)
    (options : PostProcessingOptions) (remote : RemoteOutcome) : PostProcessResult :=
  if !(optionValues options).any (fun v => v) then
    { result := text, requested := false }
  else
    match remote with
    | .failure => { result := text, requested := true }
    | .success none => { result := text, requested := true }
    | .success (some content) =>
      { result := if trimStr content = "" then text else trimStr content,
        requested := true }

/- ## RecordingOverlay stop handler (Waveform component)

The `mediaRecorder.onstop` async handler: guards for empty/short audio
and missing API key, the transcription call, optional post-processing
(whose own failure is swallowed), delivery, and a `finally` block that
always stops the stream tracks and closes the analysis AudioContext. -/

/-- The settings fields the overlay stop handler reads. -/
structure OverlaySettings where
  apiKey : String
  aiPostProcessing : Bool
  removeFillerWords : Bool
  removeFalseStarts : Bool
  fixPunctuation : Bool
  fixGrammar : Bool
  incognitoMode : Bool
deriving DecidableEq

/-- Outcome of `transcribeAudio`: text, or a thrown error message. -/
inductive TranscriptionOutcome where
  | ok (text : String)
  | failed (message : String)
deriving DecidableEq

/-- Observable effects of one run of the overlay stop handler. -/
structure OverlayStopResult where
  errorsSet : List String
  transcribeRequested : Bool
  delivered : Option String
  tracksStopped : Bool
  contextClosed : Bool
deriving DecidableEq

/-- The catch-block message `err.message?.slice(0, 15)` with the fallback `Error`. -/
def catchMsg (message : String) : String :=
  if takeStr message 15 = "" then ("Error") else takeStr message 15

/-- The overlay `onstop` handler.  Every exit path goes through the
`finally` block, so `tracksStopped` and `contextClosed` are true in all
branches; `errorsSet` records the successive `setError` calls. -/
def overlayOnStop (chunkSizes : List Nat) (settings : OverlaySettings)
    (transcription : TranscriptionOutcome) (remote : RemoteOutcome) : OverlayStopResult :=
  if chunkSizes.isEmpty then
    { errorsSet := ["No audio", catchMsg ("No audio data collected")],
      transcribeRequested := false, delivered := none,
      tracksStopped := true, contextClosed := true }
  else if chunkSizes.foldl (fun a b => a + b) 0 < 100 then
    { errorsSet := ["Too short", catchMsg ("Audio too short")],
      transcribeRequested := false, delivered := none,
      tracksStopped := true, contextClosed := true }
  else if settings.apiKey = "" then
    { errorsSet := ["No API key", catchMsg ("No API key configured")],
      transcribeRequested := false, delivered := none,
      tracksStopped := true, contextClosed := true }
  else
    match transcription with
    | .failed message =>
      { errorsSet := [catchMsg message],
        transcribeRequested := true, delivered := none,
        tracksStopped := true, contextClosed := true }
    | .ok text =>
      let text2 :=
        if settings.aiPostProcessing = true ∧ text ≠ "" ∧ trimStr text ≠ "" then
          (postProcessTranscription text settings.apiKey
            { removeFillerWords := settings.removeFillerWords,
              removeFalseStarts := settings.removeFalseStarts,
              fixPunctuation := settings.fixPunctuation,
              fixCapitalization := true,
              fixGrammar := settings.fixGrammar,
              smartFormatting := false } remote).result
        else text
      if text2 ≠ "" ∧ trimStr text2 ≠ "" then
        { errorsSet := [], transcribeRequested := true, delivered := some text2,
          tracksStopped := true, contextClosed := true }
      else
        { errorsSet := ["Empty result"], transcribeRequested := true,
          delivered := none, tracksStopped := true, contextClosed := true }

/- ## useRecording stop handler (useRecording hook)

`mediaRecorder.onstop` awaits `convertToWav` and only afterwards stops
the stream tracks; there is no try/finally around the conversion.
`convertToWav` itself closes its decoding AudioContext in a `finally`,
and rethrows decode failures. -/

/-- Outcome of `audioContext.decodeAudioData` on the finalized clip. -/
inductive DecodeOutcome where
  | ok (samples : List ℚ)
  | failure
deriving DecidableEq

/-- Observable effects of one run of the useRecording stop handler. -/
structure UseRecordingStopState where
  audioData : Option WavBlob
  tracksStopped : Bool
  decodeContextClosed : Bool
  threw : Bool
deriving DecidableEq

/-- The useRecording `onstop` handler: on decode success the WAV blob is
stored and the stream is cleaned up; on decode failure `convertToWav`
rethrows after closing its context, and the track-stopping code after
the `await` is never reached. -/
def useRecordingOnStop (decode : DecodeOutcome) : UseRecordingStopState :=
  match decode with
  | .ok samples =>
    { audioData := some (convertToWav samples), tracksStopped := true,
      decodeContextClosed := true, threw := false }
  | .failure =>
    { audioData := none, tracksStopped := false,
      decodeContextClosed := true, threw := true }

/- ## add-words IPC handler (electron main)

The electron-store fields are optional values; `store.get(...) || 0`
reads a missing counter as 0, and a stored month key that differs from
the current month resets the monthly counter before adding. -/

/-- The word-statistics fields of the electron store. -/
structure WordStore where
  wordCountMonth : Option String
  wordsThisMonth : Option Nat
  wordsTotal : Option Nat
deriving DecidableEq

/-- Return value of the `add-words` handler. -/
structure WordStats where
  wordsThisMonth : Nat
  wordsTotal : Nat
deriving DecidableEq

/-- The `add-words` IPC handler: reset the monthly counter on a month
rollover, then add `wordCount` to both counters and return the new
values, giving back the updated store and the response. -/
def addWords (store : WordStore) (currentMonth : String) (wordCount : Nat) :
    WordStore × WordStats :=
  let store1 :=
    if store.wordCountMonth ≠ some currentMonth then
      { store with wordCountMonth := some currentMonth, wordsThisMonth := some 0 }
    else store
  let currentMonthly := store1.wordsThisMonth.getD 0
  let currentTotal := store1.wordsTotal.getD 0
  ({ store1 with wordsThisMonth := some (currentMonthly + wordCount),
                 wordsTotal := some (currentTotal + wordCount) },
   { wordsThisMonth := currentMonthly + wordCount,
     wordsTotal := currentTotal + wordCount })

/- ## Dictionary substitution (post-processing service)

Modelled from the spec: the dictionary-substitution step of the
post-processing service (the variant of `postProcessTranscription`
taking a `dictionary` option, imported by the App and overlay
components) is not among the provided sources — only its callers and
the `DictionaryEntry` declarations are.  Per §4.6, after AI or local
cleanup every enabled entry is applied as a literal replacement at word
boundaries: case-sensitive entries match a whole token exactly,
case-insensitive entries match a whole token ignoring case.  Text is
represented at word granularity as its token list. -/

/-- Modelled from the spec: whether a dictionary entry matches a whole
token, exactly when case-sensitive and ignoring case otherwise. -/
def matchesEntry (entry : DictionaryEntry) (w : String) : Bool :=
  if entry.caseSensitive then w == entry.original
  else lowerStr w == lowerStr entry.original

/-- Modelled from the spec: apply one dictionary entry to tokenized
text; enabled entries replace exactly the whole tokens they match,
disabled entries change nothing. -/
def applyEntryTokens (entry : DictionaryEntry) (tokens : List String) : List String :=
  if entry.enabled then
    tokens.map (fun w => if matchesEntry entry w then entry.corrected else w)
  else tokens

/-- Modelled from the spec: apply every dictionary entry in order to the
cleaned-up text. -/
def applyDictionary (tokens : List String) (dictionary : List DictionaryEntry) : List String :=
  dictionary.foldl (fun t entry => applyEntryTokens entry t) tokens


/- ## Theorems -/

/-- C10: with all six post-processing option flags false,
`postProcessTranscription` returns the input text unchanged and issues
no network request at all. -/
theorem postProcess_all_disabled_identity (text apiKey : String)
    (remote : RemoteOutcome) :
    postProcessTranscription text apiKey
      ⟨false, false, false, false, false, false⟩ remote =
      { result := text, requested := false } := rfl

/-- C3: whenever the remote cleanup fails (the call throws, the response
has no message content, or the content trims to empty),
`postProcessTranscription` returns the original text unchanged, and the
overlay stop handler still delivers that text with no user-visible
error for the post-processing stage. -/
theorem postProcess_failure_nonfatal (text apiKey : String)
    (options : PostProcessingOptions) (remote : RemoteOutcome)
    (chunkSizes : List Nat) (settings : OverlaySettings)
    (hremote : remoteFailedOrEmpty remote = true)
    (hchunks : chunkSizes ≠ [])
    (hsize : 100 ≤ chunkSizes.foldl (fun a b => a + b) 0)
    (hkey : settings.apiKey ≠ "")
    (hai : settings.aiPostProcessing = true)
    (htext : trimStr text ≠ "") :
    (postProcessTranscription text apiKey options remote).result = text ∧
    overlayOnStop chunkSizes settings (.ok text) remote =
      { errorsSet := [], transcribeRequested := true, delivered := some text,
        tracksStopped := true, contextClosed := true } := by
  have hfail : ∀ (o : PostProcessingOptions) (k : String),
      (postProcessTranscription text k o remote).result = text := by
    intro o k
    unfold postProcessTranscription
    rcases remote with _ | c
    · split <;> rfl
    · rcases c with _ | c
      · split <;> rfl
      · have hc : trimStr c = "" := by
          simpa [remoteFailedOrEmpty] using hremote
        split
        · rfl
        · simp [hc]
  have htext' : text ≠ "" := by
    intro h
    apply htext
    rw [h]
    rfl
  refine ⟨hfail options apiKey, ?_⟩
  have hempty : chunkSizes.isEmpty = false := by
    simpa [List.isEmpty_iff] using hchunks
  have hsum : ¬ (chunkSizes.foldl (fun a b => a + b) 0 < 100) := by omega
  have hcond : settings.aiPostProcessing = true ∧ text ≠ "" ∧ trimStr text ≠ "" :=
    ⟨hai, htext', htext⟩
  unfold overlayOnStop
  rw [if_neg (by simp [hempty]), if_neg hsum, if_neg hkey]
  simp only [hfail, if_pos hcond, if_pos (And.intro htext' htext)]

/-- C8: a recording that stops with zero buffered chunks, or whose
finalized clip is smaller than 100 bytes, terminates with the terminal
error state (`No audio` / `Too short`, then the truncated thrown
message) and never issues the transcription request. -/
theorem overlay_empty_or_short_no_transcription
    (chunkSizes : List Nat) (settings : OverlaySettings)
    (transcription : TranscriptionOutcome) (remote : RemoteOutcome) :
    (chunkSizes = [] →
      overlayOnStop chunkSizes settings transcription remote =
        { errorsSet := ["No audio", "No audio data c"],
          transcribeRequested := false, delivered := none,
          tracksStopped := true, contextClosed := true }) ∧
    (chunkSizes ≠ [] → chunkSizes.foldl (fun a b => a + b) 0 < 100 →
      overlayOnStop chunkSizes settings transcription remote =
        { errorsSet := ["Too short", "Audio too short"],
          transcribeRequested := false, delivered := none,
          tracksStopped := true, contextClosed := true }) := by
  constructor
  · rintro rfl
    rfl
  · intro hne hsum
    have hempty : chunkSizes.isEmpty = false := by
      simpa [List.isEmpty_iff] using hne
    unfold overlayOnStop
    rw [if_neg (by simp [hempty]), if_pos hsum]
    rfl

/-- C7 (divergence exhibit): the overlay stop handler releases the
microphone tracks and closes the analysis context on every path, but
the useRecording stop handler, when `convertToWav` rethrows a decode
failure, returns with the stream tracks never stopped (only the decode
context was closed by the finally inside `convertToWav`). -/
theorem stop_handlers_resource_release :
    (∀ (chunkSizes : List Nat) (settings : OverlaySettings)
        (transcription : TranscriptionOutcome) (remote : RemoteOutcome),
      (overlayOnStop chunkSizes settings transcription remote).tracksStopped = true ∧
      (overlayOnStop chunkSizes settings transcription remote).contextClosed = true) ∧
    (useRecordingOnStop .failure).threw = true ∧
    (useRecordingOnStop .failure).decodeContextClosed = true ∧
    (useRecordingOnStop .failure).tracksStopped = false := by
  refine ⟨?_, rfl, rfl, rfl⟩
  intro chunkSizes settings transcription remote
  cases transcription <;>
    (unfold overlayOnStop; dsimp only; split_ifs <;> exact ⟨rfl, rfl⟩)

/-- C9: on a month rollover the monthly counter is reset before adding,
so the call returns exactly the new word count while the total keeps
accumulating; a second call in the same month does not reset again and
returns the running monthly sum. -/
theorem addWords_month_rollover (store : WordStore) (currentMonth : String)
    (w w2 : Nat) (hmonth : store.wordCountMonth ≠ some currentMonth) :
    (addWords store currentMonth w).2.wordsThisMonth = w ∧
    (addWords store currentMonth w).2.wordsTotal = store.wordsTotal.getD 0 + w ∧
    (addWords store currentMonth w).1.wordCountMonth = some currentMonth ∧
    (addWords (addWords store currentMonth w).1 currentMonth w2).2.wordsThisMonth =
      w + w2 ∧
    (addWords (addWords store currentMonth w).1 currentMonth w2).2.wordsTotal =
      store.wordsTotal.getD 0 + w + w2 := by
  unfold addWords
  rw [if_pos hmonth]
  simp

/-- Witness for C3 at a concrete failing remote call. -/
theorem postProcess_failure_nonfatal_witness :
    (postProcessTranscription ("hello world") ("key")
      ⟨true, true, true, true, false, false⟩ .failure).result = "hello world" ∧
    overlayOnStop [200] ⟨"key", true, true, true, true, false, false⟩
      (.ok ("hello world")) .failure =
      { errorsSet := [], transcribeRequested := true,
        delivered := some ("hello world"),
        tracksStopped := true, contextClosed := true } :=
  postProcess_failure_nonfatal ("hello world") ("key")
    ⟨true, true, true, true, false, false⟩ .failure [200]
    ⟨"key", true, true, true, true, false, false⟩
    rfl (by decide) (by decide) (by decide) rfl (by decide)

/-- Witness for C8 at concrete empty and too-short recordings. -/
theorem overlay_empty_or_short_no_transcription_witness :
    overlayOnStop [] ⟨"key", false, true, true, true, false, false⟩
      (.ok ("x")) .failure =
      { errorsSet := ["No audio", "No audio data c"],
        transcribeRequested := false, delivered := none,
        tracksStopped := true, contextClosed := true } ∧
    overlayOnStop [10, 20] ⟨"key", false, true, true, true, false, false⟩
      (.ok ("x")) .failure =
      { errorsSet := ["Too short", "Audio too short"],
        transcribeRequested := false, delivered := none,
        tracksStopped := true, contextClosed := true } :=
  ⟨(overlay_empty_or_short_no_transcription []
      ⟨"key", false, true, true, true, false, false⟩ (.ok ("x")) .failure).1 rfl,
   (overlay_empty_or_short_no_transcription [10, 20]
      ⟨"key", false, true, true, true, false, false⟩ (.ok ("x")) .failure).2
     (by decide) (by decide)⟩

/-- Witness for C9 at a concrete store with a stale month key. -/
theorem addWords_month_rollover_witness :
    (addWords ⟨some ("2025-9"), some 500, some 1000⟩ ("2025-10") 3).2.wordsThisMonth = 3 ∧
    (addWords ⟨some ("2025-9"), some 500, some 1000⟩ ("2025-10") 3).2.wordsTotal = 1003 ∧
    (addWords ⟨some ("2025-9"), some 500, some 1000⟩ ("2025-10") 3).1.wordCountMonth =
      some ("2025-10") ∧
    (addWords (addWords ⟨some ("2025-9"), some 500, some 1000⟩ ("2025-10") 3).1
      ("2025-10") 4).2.wordsThisMonth = 7 ∧
    (addWords (addWords ⟨some ("2025-9"), some 500, some 1000⟩ ("2025-10") 3).1
      ("2025-10") 4).2.wordsTotal = 1007 := by
  simpa using addWords_month_rollover ⟨some ("2025-9"), some 500, some 1000⟩
    ("2025-10") 3 4 (by decide)

/-- C4 (spec-modelled dictionary substitution): an enabled entry
replaces exactly the whole tokens it matches — exact match when
case-sensitive, case-insensitive match otherwise — and never a
substring inside a longer token; appending an entry to the dictionary
applies it after the previous entries. -/
theorem applyDictionary_word_boundary_substitution
    (entry : DictionaryEntry) (tokens : List String)
    (dictionary : List DictionaryEntry) (henabled : entry.enabled = true) :
    (applyEntryTokens entry tokens).length = tokens.length ∧
    (∀ i, i < tokens.length →
      (applyEntryTokens entry tokens).getD i ("") =
        (if (if entry.caseSensitive = true then tokens.getD i ("") = entry.original
             else lowerStr (tokens.getD i ("")) = lowerStr entry.original)
         then entry.corrected else tokens.getD i (""))) ∧
    applyDictionary tokens (dictionary ++ [entry]) =
      applyEntryTokens entry (applyDictionary tokens dictionary) := by
  refine ⟨by simp [applyEntryTokens, henabled], ?_, by
    simp [applyDictionary, List.foldl_append]⟩
  intro i hi
  have h1 : tokens[i]? = some (tokens.get ⟨i, hi⟩) := List.getElem?_eq_getElem hi
  by_cases hcs : entry.caseSensitive <;>
    simp [applyEntryTokens, henabled, matchesEntry, hcs,
      List.getD_eq_getElem?_getD, List.getElem?_map, h1, beq_iff_eq]

/-- Witness for C4 at a concrete entry and token list. -/
theorem applyDictionary_word_boundary_substitution_witness :
    (applyEntryTokens ⟨"1", "teh", "the", false, true, 0⟩ ["teh", "theme"]).getD 0 ("") =
      "the" ∧
    (applyEntryTokens ⟨"1", "teh", "the", false, true, 0⟩ ["teh", "theme"]).getD 1 ("") =
      "theme" ∧
    applyDictionary ["teh", "theme"] ([] ++ [⟨"1", "teh", "the", false, true, 0⟩]) =
      applyEntryTokens ⟨"1", "teh", "the", false, true, 0⟩
        (applyDictionary ["teh", "theme"] []) := by
  refine ⟨?_, ?_,
    (applyDictionary_word_boundary_substitution
      ⟨"1", "teh", "the", false, true, 0⟩ ["teh", "theme"] [] rfl).2.2⟩
  · rw [(applyDictionary_word_boundary_substitution
      ⟨"1", "teh", "the", false, true, 0⟩ ["teh", "theme"] [] rfl).2.1 0 (by decide)]
    decide
  · rw [(applyDictionary_word_boundary_substitution
      ⟨"1", "teh", "the", false, true, 0⟩ ["teh", "theme"] [] rfl).2.1 1 (by decide)]
    decide

/-- Every pair drawn from zipping a list with itself has equal components. -/
theorem mem_zip_same {l : List String} {p : String × String}
    (h : p ∈ l.zip l) : p.1 = p.2 := by
  induction l with
  | nil => simp at h
  | cons x xs ih =>
    rw [List.zip_cons_cons] at h
    rcases List.mem_cons.mp h with h | h
    · rw [h]
    · exact ih h

/-- If the index-wise case-insensitive comparison found no differences,
every original token occurs (case-insensitively) among the edited ones. -/
theorem contains_lower_of_no_diffs :
    ∀ (ow ew : List String), ow.length = ew.length →
      (ow.zip ew).filter (fun p => !(lowerStr p.1 == lowerStr p.2)) = [] →
      ∀ w ∈ ow, (ew.map lowerStr).contains (lowerStr w) = true := by
  intro ow
  induction ow with
  | nil =>
    intro ew _ _ w hw
    simp at hw
  | cons x xs ih =>
    intro ew hlen hfil w hw
    cases ew with
    | nil => simp at hlen
    | cons y ys =>
      rw [List.zip_cons_cons, List.filter_cons] at hfil
      split at hfil
      · exact absurd hfil (List.cons_ne_nil _ _)
      · next hxy =>
        have hxy' : lowerStr x = lowerStr y := by simpa using hxy
        have hlen' : xs.length = ys.length := by simpa using hlen
        rcases List.mem_cons.mp hw with rfl | hw'
        · simp [hxy']
        · have hc := ih ys hlen' hfil w hw'
          simp at hc ⊢
          exact Or.inr hc

/-- C5 (amended): with equal token counts, exactly one index-wise
case-insensitive difference whose original token is in no dictionary
entry yields exactly that pair, and zero differences yield no
suggestion.  (With more than one differing index the collapse branch
may still fire; see the counterexample.) -/
theorem detectWordCorrection_equal_counts (originalText editedText : String)
    (dict : List DictionaryEntry)
    (hlen : (tokenize originalText).length = (tokenize editedText).length) :
    ((((tokenize originalText).zip (tokenize editedText)).filter
        (fun p => !(lowerStr p.1 == lowerStr p.2))) = [] →
      detectWordCorrection originalText editedText dict = none) ∧
    (∀ a b, (((tokenize originalText).zip (tokenize editedText)).filter
        (fun p => !(lowerStr p.1 == lowerStr p.2))) = [(a, b)] →
      dict.any (fun entry => lowerStr entry.original == lowerStr a) = false →
      detectWordCorrection originalText editedText dict = some ⟨a, b⟩) := by
  constructor
  · intro hfil
    by_cases hguard : originalText = "" ∨ editedText = "" ∨ originalText = editedText
    · unfold detectWordCorrection
      rw [if_pos hguard]
    · unfold detectWordCorrection
      rw [if_neg hguard]
      have heq : equalCountBranch (tokenize originalText) (tokenize editedText)
          dict = none := by
        unfold equalCountBranch
        rw [if_pos hlen, hfil]
      simp only [heq]
      have hrem : (tokenize originalText).filter
          (fun w => !(((tokenize editedText).map lowerStr).contains (lowerStr w))) = [] := by
        rw [List.filter_eq_nil_iff]
        intro w hw
        have hc := contains_lower_of_no_diffs _ _ hlen hfil w hw
        simp at hc ⊢
        exact hc
      unfold collapseBranch
      rw [if_pos (by rw [hlen]; simp)]
      dsimp only
      rw [hrem]
      simp
  · intro a b hfil hdict
    have hmem : (a, b) ∈ ((tokenize originalText).zip (tokenize editedText)) ∧
        (!(lowerStr a == lowerStr b)) = true := by
      have hx : (a, b) ∈ (((tokenize originalText).zip (tokenize editedText)).filter
          (fun p => !(lowerStr p.1 == lowerStr p.2))) := by
        rw [hfil]
        simp
      exact List.mem_filter.mp hx
    have hab : lowerStr a ≠ lowerStr b := by simpa using hmem.2
    have ho : originalText ≠ "" := by
      intro h
      rw [h, show tokenize ("") = [] from rfl] at hfil
      simp at hfil
    have he : editedText ≠ "" := by
      intro h
      rw [h, show tokenize ("") = [] from rfl] at hfil
      simp at hfil
    have hne : originalText ≠ editedText := by
      intro h
      subst h
      exact hab (congrArg lowerStr (mem_zip_same hmem.1))
    unfold detectWordCorrection
    rw [if_neg (by push_neg; exact ⟨ho, he, hne⟩)]
    have heq : equalCountBranch (tokenize originalText) (tokenize editedText) dict =
        some ⟨a, b⟩ := by
      unfold equalCountBranch
      rw [if_pos hlen, hfil]
      simp [hdict]
    simp only [heq]

/-- C5 counterexample: equal token counts with two differing indices
still produce a suggestion (via the collapse branch), contradicting
"any other equal-count edit shape yields no suggestion". -/
theorem detectWordCorrection_equal_counts_counterexample :
    (tokenize ("a a b")).length = (tokenize ("c b b")).length ∧
    (((tokenize ("a a b")).zip (tokenize ("c b b"))).filter
        (fun p => !(lowerStr p.1 == lowerStr p.2))).length = 2 ∧
    detectWordCorrection ("a a b") ("c b b") [] = some ⟨"a a", "c"⟩ := by decide

/-- Witness for C5 (amended) at the concrete examples of the spec. -/
theorem detectWordCorrection_equal_counts_witness :
    detectWordCorrection ("hello world") ("hello world") [] = none ∧
    detectWordCorrection ("the cat sat") ("the dog sat") [] = some ⟨"cat", "dog"⟩ :=
  ⟨(detectWordCorrection_equal_counts ("hello world") ("hello world") []
      (by decide)).1 (by decide),
   (detectWordCorrection_equal_counts ("the cat sat") ("the dog sat") []
      (by decide)).2 ("cat") ("dog") (by decide) (by decide)⟩

/-- C6 (amended): when the token counts are unequal but differ by at
most two, the result is exactly the set-difference characterization:
a suggestion `{removed tokens joined by spaces, the single added
token}` precisely when at least one original token is absent
case-insensitively from the edited text, exactly one edited token is
absent from the original, no dictionary entry has the joined phrase as
its original, and the phrase differs case-insensitively from the added
token.  (With equal token counts the index-wise branch can fire even
when no token is absent; see the counterexample.) -/
theorem detectWordCorrection_unequal_counts (originalText editedText : String)
    (dict : List DictionaryEntry)
    (hne : (tokenize originalText).length ≠ (tokenize editedText).length)
    (hdiff : (((tokenize originalText).length : Int) -
        ((tokenize editedText).length : Int)).natAbs ≤ 2) :
    detectWordCorrection originalText editedText dict =
      (let removed := (tokenize originalText).filter
          (fun w => !(((tokenize editedText).map lowerStr).contains (lowerStr w)))
       let added := (tokenize editedText).filter
          (fun w => !(((tokenize originalText).map lowerStr).contains (lowerStr w)))
       if removed.length ≥ 1 ∧ added.length = 1 ∧
          dict.any (fun entry =>
            lowerStr entry.original == lowerStr (joinSpace removed)) = false ∧
          lowerStr (joinSpace removed) ≠ lowerStr (added.headD ("")) then
         some ⟨joinSpace removed, added.headD ("")⟩
       else none) := by
  have htextne : originalText ≠ editedText := by
    intro h
    exact hne (by rw [h])
  by_cases ho : originalText = ""
  · subst ho
    unfold detectWordCorrection
    rw [if_pos (Or.inl rfl), show tokenize ("") = [] from rfl]
    simp
  by_cases he : editedText = ""
  · subst he
    unfold detectWordCorrection
    rw [if_pos (Or.inr (Or.inl rfl)), show tokenize ("") = [] from rfl]
    simp
  unfold detectWordCorrection
  rw [if_neg (by push_neg; exact ⟨ho, he, htextne⟩)]
  have heq : equalCountBranch (tokenize originalText) (tokenize editedText)
      dict = none := by
    unfold equalCountBranch
    rw [if_neg hne]
  simp only [heq]
  unfold collapseBranch
  rw [if_pos hdiff]
  dsimp only
  set removed := (tokenize originalText).filter
    (fun w => !(((tokenize editedText).map lowerStr).contains (lowerStr w))) with hrem
  set added := (tokenize editedText).filter
    (fun w => !(((tokenize originalText).map lowerStr).contains (lowerStr w))) with hadd
  by_cases hA : removed.length ≥ 1 ∧ added.length = 1
  · rw [if_pos hA]
    by_cases hC : dict.any (fun entry =>
        lowerStr entry.original == lowerStr (joinSpace removed)) = true
    · rw [if_pos hC, if_neg]
      intro h
      rw [h.2.2.1] at hC
      exact Bool.false_ne_true hC
    · have hC' : dict.any (fun entry =>
          lowerStr entry.original == lowerStr (joinSpace removed)) = false := by
        simpa using hC
      rw [if_neg hC]
      by_cases hD : lowerStr (joinSpace removed) = lowerStr (added.headD (""))
      · rw [if_pos hD, if_neg]
        intro h
        exact h.2.2.2 hD
      · rw [if_neg hD, if_pos ⟨hA.1, hA.2, hC', hD⟩]
  · rw [if_neg hA, if_neg]
    intro h
    exact hA ⟨h.1, h.2.1⟩

/-- C6 counterexample: equal token counts (difference 0, hence at most
two) where no original token is absent from the edited text, yet a
suggestion is still proposed by the index-wise branch — contradicting
the claimed "exactly when" characterization over all count differences
of at most two. -/
theorem detectWordCorrection_unequal_counts_counterexample :
    ((((tokenize ("a b a")).length : Int) -
        ((tokenize ("a b c")).length : Int)).natAbs ≤ 2) ∧
    (tokenize ("a b a")).filter
      (fun w => !(((tokenize ("a b c")).map lowerStr).contains (lowerStr w))) = [] ∧
    detectWordCorrection ("a b a") ("a b c") [] = some ⟨"a", "c"⟩ := by decide

/-- Witness for C6 (amended) at the phrase-collapse example of the spec. -/
theorem detectWordCorrection_unequal_counts_witness :
    detectWordCorrection ("tally dot io") ("tallie.io") [] =
      some ⟨"tally dot io", "tallie.io"⟩ :=
  (detectWordCorrection_unequal_counts ("tally dot io") ("tallie.io") []
    (by decide) (by decide)).trans (by decide)

/-- Reading with `getD` through a `range`-`map` construction yields the function value. -/
theorem getD_range_map (f : Nat → Nat) (n i : Nat) (h : i < n) :
    ((List.range n).map f).getD i 0 = f i := by
  rw [List.getD_eq_getElem?_getD, List.getElem?_map, List.getElem?_range h]
  rfl

/-- The sample-writing loop never touches positions before its offset. -/
theorem writeAudioData_lt (xs : List ℚ) (view : Nat → Nat) (offset i : Nat)
    (h : i < offset) : writeAudioData view offset xs i = view i := by
  induction xs generalizing view offset with
  | nil => rfl
  | cons x xs ih =>
    rw [writeAudioData, ih _ _ (by omega)]
    have h1 : i ≠ offset := by omega
    have h2 : i ≠ offset + 1 := by omega
    simp [setInt16, setUint16, setUint8, h1, h2]

/-- The twos-complement 16-bit image is always below `2^16`. -/
theorem toUInt16_lt (z : Int) : toUInt16 z < 65536 := by
  unfold toUInt16
  omega

/-- The two bytes the sample loop stores for the `i`-th sample are the
little-endian bytes of the encoded sample. -/
theorem writeAudioData_bytes (xs : List ℚ) (view : Nat → Nat) (offset i : Nat)
    (h : i < xs.length) :
    writeAudioData view offset xs (offset + 2 * i) =
      toUInt16 (encodeSample (xs.getD i 0)) % 256 ∧
    writeAudioData view offset xs (offset + 2 * i + 1) =
      toUInt16 (encodeSample (xs.getD i 0)) / 256 % 256 := by
  induction xs generalizing view offset i with
  | nil => simp at h
  | cons x xs ih =>
    cases i with
    | zero =>
      rw [Nat.mul_zero, Nat.add_zero]
      rw [writeAudioData, writeAudioData_lt _ _ _ _ (by omega),
        writeAudioData_lt _ _ _ _ (by omega)]
      have h1 : offset ≠ offset + 1 := by omega
      constructor
      · simp [setInt16, setUint16, setUint8, encodeSample, h1]
      · simp [setInt16, setUint16, setUint8, encodeSample]
    | succ i =>
      have harith : offset + 2 * (i + 1) = (offset + 2) + 2 * i := by omega
      have harith2 : offset + 2 * (i + 1) + 1 = (offset + 2) + 2 * i + 1 := by omega
      have hi : i < xs.length := by simpa using h
      have hrec := ih (setInt16 view offset (scaledSample x)) (offset + 2) i hi
      constructor
      · rw [writeAudioData, harith]
        simpa using hrec.1
      · rw [writeAudioData, harith2]
        simpa using hrec.2

/-- The blob byte at an in-range index is the final view at that index. -/
theorem byteAt_convertToWav (samples : List ℚ) (i : Nat)
    (h : i < 44 + samples.length * 2) :
    byteAt (convertToWav samples) i =
      writeAudioData (headerView samples.length) 44 samples i := by
  unfold byteAt convertToWav
  exact getD_range_map _ _ _ h

/-- Every header byte of the blob is the header view at that index. -/
theorem byteAt_headerView (samples : List ℚ) (i : Nat) (hi : i < 44) :
    byteAt (convertToWav samples) i = headerView samples.length i := by
  rw [byteAt_convertToWav _ _ (by omega), writeAudioData_lt _ _ _ _ hi]

/-- The blob has exactly `44 + 2N` bytes. -/
theorem convertToWav_length (samples : List ℚ) :
    (convertToWav samples).bytes.length = 44 + 2 * samples.length := by
  simp [convertToWav]
  omega

/-- The four string fields of the header: RIFF, WAVE, fmt-space, data. -/
theorem convertToWav_string_fields (samples : List ℚ) :
    (byteAt (convertToWav samples) 0 = 82 ∧ byteAt (convertToWav samples) 1 = 73 ∧
      byteAt (convertToWav samples) 2 = 70 ∧ byteAt (convertToWav samples) 3 = 70) ∧
    (byteAt (convertToWav samples) 8 = 87 ∧ byteAt (convertToWav samples) 9 = 65 ∧
      byteAt (convertToWav samples) 10 = 86 ∧ byteAt (convertToWav samples) 11 = 69) ∧
    (byteAt (convertToWav samples) 12 = 102 ∧ byteAt (convertToWav samples) 13 = 109 ∧
      byteAt (convertToWav samples) 14 = 116 ∧ byteAt (convertToWav samples) 15 = 32) ∧
    (byteAt (convertToWav samples) 36 = 100 ∧ byteAt (convertToWav samples) 37 = 97 ∧
      byteAt (convertToWav samples) 38 = 116 ∧ byteAt (convertToWav samples) 39 = 97) := by
  refine ⟨⟨?_, ?_, ?_, ?_⟩, ⟨?_, ?_, ?_, ?_⟩, ⟨?_, ?_, ?_, ?_⟩, ⟨?_, ?_, ?_, ?_⟩⟩
  · rw [byteAt_headerView _ 0 (by omega)]; rfl
  · rw [byteAt_headerView _ 1 (by omega)]; rfl
  · rw [byteAt_headerView _ 2 (by omega)]; rfl
  · rw [byteAt_headerView _ 3 (by omega)]; rfl
  · rw [byteAt_headerView _ 8 (by omega)]; rfl
  · rw [byteAt_headerView _ 9 (by omega)]; rfl
  · rw [byteAt_headerView _ 10 (by omega)]; rfl
  · rw [byteAt_headerView _ 11 (by omega)]; rfl
  · rw [byteAt_headerView _ 12 (by omega)]; rfl
  · rw [byteAt_headerView _ 13 (by omega)]; rfl
  · rw [byteAt_headerView _ 14 (by omega)]; rfl
  · rw [byteAt_headerView _ 15 (by omega)]; rfl
  · rw [byteAt_headerView _ 36 (by omega)]; rfl
  · rw [byteAt_headerView _ 37 (by omega)]; rfl
  · rw [byteAt_headerView _ 38 (by omega)]; rfl
  · rw [byteAt_headerView _ 39 (by omega)]; rfl

/-- The constant numeric fields of the fmt chunk. -/
theorem convertToWav_fmt_fields (samples : List ℚ) :
    readU32 (convertToWav samples) 16 = 16 ∧
    readU16 (convertToWav samples) 20 = 1 ∧
    readU16 (convertToWav samples) 22 = 1 ∧
    readU32 (convertToWav samples) 24 = 16000 ∧
    readU32 (convertToWav samples) 28 = 32000 ∧
    readU16 (convertToWav samples) 32 = 2 ∧
    readU16 (convertToWav samples) 34 = 16 := by
  have h16 : byteAt (convertToWav samples) 16 = 16 := by
    rw [byteAt_headerView _ 16 (by omega)]; rfl
  have h17 : byteAt (convertToWav samples) 17 = 0 := by
    rw [byteAt_headerView _ 17 (by omega)]; rfl
  have h18 : byteAt (convertToWav samples) 18 = 0 := by
    rw [byteAt_headerView _ 18 (by omega)]; rfl
  have h19 : byteAt (convertToWav samples) 19 = 0 := by
    rw [byteAt_headerView _ 19 (by omega)]; rfl
  have h20 : byteAt (convertToWav samples) 20 = 1 := by
    rw [byteAt_headerView _ 20 (by omega)]; rfl
  have h21 : byteAt (convertToWav samples) 21 = 0 := by
    rw [byteAt_headerView _ 21 (by omega)]; rfl
  have h22 : byteAt (convertToWav samples) 22 = 1 := by
    rw [byteAt_headerView _ 22 (by omega)]; rfl
  have h23 : byteAt (convertToWav samples) 23 = 0 := by
    rw [byteAt_headerView _ 23 (by omega)]; rfl
  have h24 : byteAt (convertToWav samples) 24 = 128 := by
    rw [byteAt_headerView _ 24 (by omega)]; rfl
  have h25 : byteAt (convertToWav samples) 25 = 62 := by
    rw [byteAt_headerView _ 25 (by omega)]; rfl
  have h26 : byteAt (convertToWav samples) 26 = 0 := by
    rw [byteAt_headerView _ 26 (by omega)]; rfl
  have h27 : byteAt (convertToWav samples) 27 = 0 := by
    rw [byteAt_headerView _ 27 (by omega)]; rfl
  have h28 : byteAt (convertToWav samples) 28 = 0 := by
    rw [byteAt_headerView _ 28 (by omega)]; rfl
  have h29 : byteAt (convertToWav samples) 29 = 125 := by
    rw [byteAt_headerView _ 29 (by omega)]; rfl
  have h30 : byteAt (convertToWav samples) 30 = 0 := by
    rw [byteAt_headerView _ 30 (by omega)]; rfl
  have h31 : byteAt (convertToWav samples) 31 = 0 := by
    rw [byteAt_headerView _ 31 (by omega)]; rfl
  have h32 : byteAt (convertToWav samples) 32 = 2 := by
    rw [byteAt_headerView _ 32 (by omega)]; rfl
  have h33 : byteAt (convertToWav samples) 33 = 0 := by
    rw [byteAt_headerView _ 33 (by omega)]; rfl
  have h34 : byteAt (convertToWav samples) 34 = 16 := by
    rw [byteAt_headerView _ 34 (by omega)]; rfl
  have h35 : byteAt (convertToWav samples) 35 = 0 := by
    rw [byteAt_headerView _ 35 (by omega)]; rfl
  refine ⟨?_, ?_, ?_, ?_, ?_, ?_, ?_⟩ <;>
    simp only [readU32, readU16] <;>
    norm_num [h16, h17, h18, h19, h20, h21, h22, h23, h24, h25, h26, h27,
      h28, h29, h30, h31, h32, h33, h34, h35]

/-- The RIFF chunk size field reads back `36 + 2N` below `2^32`. -/
theorem convertToWav_riff_size (samples : List ℚ)
    (hsize : 36 + samples.length * 2 < 4294967296) :
    readU32 (convertToWav samples) 4 = 36 + 2 * samples.length := by
  have hlow4 : byteAt (convertToWav samples) 4 =
      (36 + samples.length * 2) % 256 := by
    rw [byteAt_headerView _ 4 (by omega)]; rfl
  have hlow5 : byteAt (convertToWav samples) 5 =
      (36 + samples.length * 2) / 256 % 256 := by
    rw [byteAt_headerView _ 5 (by omega)]; rfl
  have hlow6 : byteAt (convertToWav samples) 6 =
      (36 + samples.length * 2) / 65536 % 256 := by
    rw [byteAt_headerView _ 6 (by omega)]; rfl
  have hlow7 : byteAt (convertToWav samples) 7 =
      (36 + samples.length * 2) / 16777216 % 256 := by
    rw [byteAt_headerView _ 7 (by omega)]; rfl
  unfold readU32 readU16
  norm_num [hlow4, hlow5, hlow6, hlow7]
  omega

/-- The data chunk size field reads back `2N` below `2^32`. -/
theorem convertToWav_data_size (samples : List ℚ)
    (hsize : 36 + samples.length * 2 < 4294967296) :
    readU32 (convertToWav samples) 40 = 2 * samples.length := by
  have hlow40 : byteAt (convertToWav samples) 40 =
      samples.length * 2 % 256 := by
    rw [byteAt_headerView _ 40 (by omega)]; rfl
  have hlow41 : byteAt (convertToWav samples) 41 =
      samples.length * 2 / 256 % 256 := by
    rw [byteAt_headerView _ 41 (by omega)]; rfl
  have hlow42 : byteAt (convertToWav samples) 42 =
      samples.length * 2 / 65536 % 256 := by
    rw [byteAt_headerView _ 42 (by omega)]; rfl
  have hlow43 : byteAt (convertToWav samples) 43 =
      samples.length * 2 / 16777216 % 256 := by
    rw [byteAt_headerView _ 43 (by omega)]; rfl
  unfold readU32 readU16
  norm_num [hlow40, hlow41, hlow42, hlow43]
  omega

/-- After the header, sample `i` is stored as the little-endian
twos-complement 16-bit image of its encoded value. -/
theorem convertToWav_sample_bytes (samples : List ℚ) (i : Nat)
    (hi : i < samples.length) :
    readU16 (convertToWav samples) (44 + 2 * i) =
      toUInt16 (encodeSample (samples.getD i 0)) := by
  have hbytes := writeAudioData_bytes samples (headerView samples.length) 44 i hi
  unfold readU16
  rw [byteAt_convertToWav _ _ (by omega), byteAt_convertToWav _ _ (by omega),
    hbytes.1, hbytes.2]
  have hv := toUInt16_lt (encodeSample (samples.getD i 0))
  omega

/-- C1: for every decoded buffer of N samples (with the RIFF size field
in 32-bit range), `convertToWav` returns an `audio/wav` blob of exactly
`44 + 2N` bytes whose header declares RIFF/WAVE, fmt chunk size 16, PCM
format 1, 1 channel, 16000 Hz, byte rate 32000, block align 2, 16 bits
per sample, RIFF chunk size `36 + 2N` and data chunk size `2N`,
followed by the samples as 16-bit little-endian signed integers. -/
theorem convertToWav_header_format (samples : List ℚ)
    (hsize : 36 + samples.length * 2 < 4294967296) :
    (convertToWav samples).mimeType = "audio/wav" ∧
    (convertToWav samples).bytes.length = 44 + 2 * samples.length ∧
    (byteAt (convertToWav samples) 0 = 82 ∧ byteAt (convertToWav samples) 1 = 73 ∧
      byteAt (convertToWav samples) 2 = 70 ∧ byteAt (convertToWav samples) 3 = 70) ∧
    readU32 (convertToWav samples) 4 = 36 + 2 * samples.length ∧
    (byteAt (convertToWav samples) 8 = 87 ∧ byteAt (convertToWav samples) 9 = 65 ∧
      byteAt (convertToWav samples) 10 = 86 ∧ byteAt (convertToWav samples) 11 = 69) ∧
    (byteAt (convertToWav samples) 12 = 102 ∧ byteAt (convertToWav samples) 13 = 109 ∧
      byteAt (convertToWav samples) 14 = 116 ∧ byteAt (convertToWav samples) 15 = 32) ∧
    readU32 (convertToWav samples) 16 = 16 ∧
    readU16 (convertToWav samples) 20 = 1 ∧
    readU16 (convertToWav samples) 22 = 1 ∧
    readU32 (convertToWav samples) 24 = 16000 ∧
    readU32 (convertToWav samples) 28 = 32000 ∧
    readU16 (convertToWav samples) 32 = 2 ∧
    readU16 (convertToWav samples) 34 = 16 ∧
    (byteAt (convertToWav samples) 36 = 100 ∧ byteAt (convertToWav samples) 37 = 97 ∧
      byteAt (convertToWav samples) 38 = 116 ∧ byteAt (convertToWav samples) 39 = 97) ∧
    readU32 (convertToWav samples) 40 = 2 * samples.length ∧
    (∀ i, i < samples.length →
      readU16 (convertToWav samples) (44 + 2 * i) =
        toUInt16 (encodeSample (samples.getD i 0))) :=
  ⟨rfl, convertToWav_length samples,
   (convertToWav_string_fields samples).1,
   convertToWav_riff_size samples hsize,
   (convertToWav_string_fields samples).2.1,
   (convertToWav_string_fields samples).2.2.1,
   (convertToWav_fmt_fields samples).1,
   (convertToWav_fmt_fields samples).2.1,
   (convertToWav_fmt_fields samples).2.2.1,
   (convertToWav_fmt_fields samples).2.2.2.1,
   (convertToWav_fmt_fields samples).2.2.2.2.1,
   (convertToWav_fmt_fields samples).2.2.2.2.2.1,
   (convertToWav_fmt_fields samples).2.2.2.2.2.2,
   (convertToWav_string_fields samples).2.2.2,
   convertToWav_data_size samples hsize,
   fun i hi => convertToWav_sample_bytes samples i hi⟩

/-- Witness for C1 at a concrete two-sample buffer. -/
theorem convertToWav_header_format_witness :
    (convertToWav [1, -1]).mimeType = "audio/wav" ∧
    (convertToWav [1, -1]).bytes.length = 48 ∧
    readU32 (convertToWav [1, -1]) 4 = 40 ∧
    readU32 (convertToWav [1, -1]) 24 = 16000 ∧
    readU32 (convertToWav [1, -1]) 40 = 4 ∧
    readU16 (convertToWav [1, -1]) 44 = toUInt16 (encodeSample 1) := by
  obtain ⟨h1, h2, h3, h4, h5, h6, h7, h8, h9, h10, h11, h12, h13, h14, h15, h16⟩ :=
    convertToWav_header_format [1, -1] (by norm_num)
  exact ⟨h1, by simpa using h2, by simpa using h4, h10, by simpa using h15,
    by simpa using h16 0 (by norm_num)⟩

/-- C2: every sample is clamped to `[-1, 1]` and scaled asymmetrically
(by 32768 when negative, 32767 otherwise) before truncation, so every
stored value lies in `[-32768, 32767]`, an input of `+1` maps to
`32767`, and the 16-bit twos-complement store decodes back to the same
signed value (no overflow). -/
theorem encodeSample_clamped_scaled_bounds (x : ℚ) :
    (-32768 ≤ encodeSample x ∧ encodeSample x ≤ 32767) ∧
    (x ≤ -1 → encodeSample x = -32768) ∧
    (1 ≤ x → encodeSample x = 32767) ∧
    (-1 ≤ x → x ≤ 1 →
      encodeSample x = jsTrunc (if x < 0 then x * 32768 else x * 32767)) ∧
    ((if toUInt16 (encodeSample x) < 32768 then (toUInt16 (encodeSample x) : Int)
      else (toUInt16 (encodeSample x) : Int) - 65536) = encodeSample x) := by
  have hlo : -1 ≤ clampSample x := le_max_left _ _
  have hhi : clampSample x ≤ 1 := max_le (by norm_num) (min_le_left _ _)
  have hbounds : -32768 ≤ encodeSample x ∧ encodeSample x ≤ 32767 := by
    simp only [encodeSample, scaledSample]
    by_cases hs : clampSample x < 0
    · rw [if_pos hs]
      have hneg : clampSample x * 0x8000 < 0 :=
        mul_neg_of_neg_of_pos hs (by norm_num)
      simp only [jsTrunc, if_pos hneg]
      constructor
      · have h1 : ((-32768 : Int) : ℚ) ≤ clampSample x * 0x8000 := by
          push_cast
          nlinarith [hlo]
        calc (-32768 : Int) = ⌈((-32768 : Int) : ℚ)⌉ := (Int.ceil_intCast _).symm
          _ ≤ ⌈clampSample x * 0x8000⌉ := Int.ceil_le_ceil h1
      · have h2 : ⌈clampSample x * 0x8000⌉ ≤ 0 :=
          Int.ceil_le.mpr (by push_cast; nlinarith [hneg.le])
        omega
    · rw [if_neg hs]
      have hs' : 0 ≤ clampSample x := not_lt.mp hs
      have hnn : 0 ≤ clampSample x * 0x7fff :=
        mul_nonneg hs' (by norm_num)
      simp only [jsTrunc, if_neg (not_lt.mpr hnn)]
      constructor
      · have := Int.floor_nonneg.mpr hnn
        omega
      · have h2 : clampSample x * 0x7fff ≤ ((32767 : Int) : ℚ) := by
          push_cast
          nlinarith [hhi]
        calc ⌊clampSample x * 0x7fff⌋ ≤ ⌊((32767 : Int) : ℚ)⌋ := Int.floor_le_floor h2
          _ = 32767 := Int.floor_intCast _
  refine ⟨hbounds, ?_, ?_, ?_, ?_⟩
  · intro hx
    have hclamp : clampSample x = -1 := by
      rw [clampSample, min_eq_right (hx.trans (by norm_num)), max_eq_left hx]
    have hval : ((-1 : ℚ)) * 0x8000 = ((-32768 : Int) : ℚ) := by norm_num
    simp only [encodeSample, scaledSample, hclamp]
    rw [if_pos (show (-1 : ℚ) < 0 by norm_num), hval]
    rw [jsTrunc, if_pos (show ((-32768 : Int) : ℚ) < 0 by push_cast; norm_num),
      Int.ceil_intCast]
  · intro hx
    have hclamp : clampSample x = 1 := by
      rw [clampSample, min_eq_left hx, max_eq_right (by norm_num)]
    have hval : ((1 : ℚ)) * 0x7fff = ((32767 : Int) : ℚ) := by norm_num
    simp only [encodeSample, scaledSample, hclamp]
    rw [if_neg (show ¬ ((1 : ℚ) < 0) by norm_num), hval]
    rw [jsTrunc, if_neg (show ¬ (((32767 : Int) : ℚ) < 0) by push_cast; norm_num),
      Int.floor_intCast]
  · intro h1 h2
    have hclamp : clampSample x = x := by
      rw [clampSample, min_eq_right h2, max_eq_right h1]
    simp only [encodeSample, scaledSample, hclamp]
  · obtain ⟨hb1, hb2⟩ := hbounds
    simp only [toUInt16]
    split <;> omega

/-- Witness for C2 at the positive boundary input `+1`. -/
theorem encodeSample_clamped_scaled_bounds_witness :
    (-32768 ≤ encodeSample 1 ∧ encodeSample 1 ≤ 32767) ∧ encodeSample 1 = 32767 :=
  ⟨(encodeSample_clamped_scaled_bounds 1).1,
   (encodeSample_clamped_scaled_bounds 1).2.2.1 (by norm_num)⟩
